import Mathlib

/-!
Shallow embedding of the retrieval-augmented conversational orchestrator of
the Sanal-Sekreter repository, together with theorems settling the frozen
claims about it.

Sources embedded (JavaScript):
* `src/services/llm/orchestrator.service.js` — intent detection, handoff
  policy, conversation history, embeddings batching, chunking, query
  validation.
* `src/services/rag/vector-store.service.js` — batch insert transaction and
  similarity search.
* the Drive indexing pipeline (`DriveService.indexFolder`).
-/

namespace SanalSekreter

/-- Character-list version of substring search: `subAt hay needle` is `true`
iff `needle` occurs (contiguously) in `hay`.  Models JavaScript
`String.prototype.includes`. -/
def leadsWith : List Char → List Char → Bool
  | [], _ => true
  | _ :: _, [] => false
  | a :: as, b :: bs => a == b && leadsWith as bs

def subAt : List Char → List Char → Bool
  | hay, needle =>
    match hay with
    | [] => leadsWith needle []
    | _ :: t => leadsWith needle hay || subAt t needle

/-- `strContainsSub hay needle` models JavaScript `hay.includes(needle)`. -/
def strContainsSub (hay needle : String) : Bool :=
  subAt hay.data needle.data

/-- Lowercasing, modelling `String.prototype.toLowerCase` by mapping
`Char.toLower` over the characters (ASCII case mapping; the JavaScript
function additionally lowercases non-ASCII letters, which none of the claims
depend on). -/
def toLowerStr (s : String) : String :=
  ⟨s.data.map Char.toLower⟩

/-- Whitespace trimming at both ends, modelling `String.prototype.trim`. -/
def jsTrim (s : String) : String :=
  ⟨((s.data.dropWhile Char.isWhitespace).reverse.dropWhile Char.isWhitespace).reverse⟩

/-- Executable binary minimum on the rationals, modelling `Math.min`. -/
def ratMin (a b : ℚ) : ℚ := if a ≤ b then a else b

/-- Strict lexicographic order on character lists by code point (used only by
the spec-worded alphabetical tie-break). -/
def lexLt : List Char → List Char → Bool
  | [], [] => false
  | [], _ :: _ => true
  | _ :: _, [] => false
  | a :: as, b :: bs => a.toNat < b.toNat || (a == b && lexLt as bs)

def strLt (a b : String) : Bool := lexLt a.data b.data

/-! ## Intent classifier (`OrchestratorService.detectIntent`) -/

/-- The intent keyword table, in the exact declaration order of the source
object literal in `detectIntent` (orchestrator.service.js lines 151-160). -/
def intentTable : List (String × List String) :=
  [("business_hours", ["heures", "ouvert", "horaires", "açık", "saat", "hours", "open"]),
   ("services", ["service", "réparation", "repair", "tamir", "hizmet"]),
   ("appointment", ["rendez-vous", "appointment", "randevu", "réserver", "book"]),
   ("technical_support", ["problème", "problem", "sorun", "bug", "error", "panne"]),
   ("pricing", ["prix", "tarif", "cost", "price", "fiyat"]),
   ("location", ["adresse", "où", "location", "address", "adres", "nerede"]),
   ("contact", ["contact", "email", "téléphone", "phone", "iletişim"]),
   ("agent_request", ["agent", "personne", "human", "temsilci", "insan"])]

/-- Number of keywords of one intent that occur as substrings of the
lowercased text: `keywords.filter(keyword => lowerText.includes(keyword)).length`. -/
def countMatches (lowerText : String) (keywords : List String) : Nat :=
  (keywords.filter (fun k => strContainsSub lowerText k)).length

/-- The running best of the `for (const [intent, keywords] of ...)` loop:
starting from the accumulator (initially `("general_inquiry", 0)`), replace it
whenever the current count is strictly greater (`matches > maxMatches`). -/
def scanBest (acc : String × Nat) : List (String × Nat) → String × Nat
  | [] => acc
  | p :: t => scanBest (if acc.2 < p.2 then p else acc) t

/-- Maximum match count over the (name, count) list; `0` on the empty list. -/
def maxCount : List (String × Nat) → Nat
  | [] => 0
  | p :: t => max p.2 (maxCount t)

structure Intent where
  name : String
  confidence : ℚ
  keywords : List String
deriving Repr, DecidableEq

/-- Keyword list reported for a detected intent: `intents[detectedIntent] || []`. -/
def keywordsOf (name : String) : List String :=
  ((intentTable.find? (fun e => e.1 == name)).map (fun e => e.2)).getD []

/-- Embedding of `OrchestratorService.detectIntent` (orchestrator.service.js
lines 148-181): lowercase the text, count keyword substring matches per
intent, scan for the best (strictly-greater updates, so the earliest declared
intent wins ties), confidence `min(maxMatches * 0.3, 0.95)`. -/
def detectIntent (text : String) : Intent :=
  let lowerText := toLowerStr text
  let counts := intentTable.map (fun e => (e.1, countMatches lowerText e.2))
  let best := scanBest ("general_inquiry", 0) counts
  { name := best.1
    confidence := ratMin ((best.2 : ℚ) * (3 / 10)) (19 / 20)
    keywords := keywordsOf best.1 }

/-- Modelled from the spec (§4.5): a classifier that is identical to
`detectIntent` except that ties between equal-count intents are broken by
alphabetical intent-name order, as the claim asserts.  Used only to compare
against the behaviour of the source. -/
def detectIntentAlphaSpec (text : String) : Intent :=
  let lowerText := toLowerStr text
  let counts := intentTable.map (fun e => (e.1, countMatches lowerText e.2))
  let m := maxCount counts
  let tiedNames := (counts.filter (fun p => p.2 == m)).map (fun p => p.1)
  let name :=
    if m = 0 then "general_inquiry"
    else tiedNames.foldl (fun acc n => if strLt n acc then n else acc) (tiedNames.headD "general_inquiry")
  { name := name
    confidence := ratMin ((m : ℚ) * (3 / 10)) (19 / 20)
    keywords := keywordsOf name }

/-- Reference formulation of the classifier the code actually implements: the
earliest intent in declaration order whose match count equals the maximum
(default `general_inquiry` when no keyword matches). -/
def detectIntentDeclSpec (text : String) : Intent :=
  let lowerText := toLowerStr text
  let counts := intentTable.map (fun e => (e.1, countMatches lowerText e.2))
  let m := maxCount counts
  let name :=
    if m = 0 then "general_inquiry"
    else ((counts.find? (fun p => p.2 == m)).getD ("general_inquiry", 0)).1
  { name := name
    confidence := ratMin ((m : ℚ) * (3 / 10)) (19 / 20)
    keywords := keywordsOf name }

/-! ## Handoff policy (`shouldHandoff`, `getHandoffReason`) -/

structure ToolResult where
  tool : String
  summary : String
deriving Repr, DecidableEq

/-- Embedding of `OrchestratorService.shouldHandoff` (orchestrator.service.js
lines 240-263).  `isBizHours` stands for the external `isBusinessHours()`
call; `toolResults` is the list gathered by `gatherContext`. -/
def shouldHandoff (intent : Intent) (isBizHours : Bool) (toolResults : List ToolResult) : Bool :=
  if intent.name = "agent_request" then true
  else if intent.confidence < 3 / 10 then true
  else if intent.name = "technical_support" ∧ isBizHours = true then true
  else if (¬ toolResults.any (fun t => t.tool == "knowledge_base")) ∧ intent.name ≠ "general_inquiry" then true
  else false

/-- Embedding of `OrchestratorService.getHandoffReason` (orchestrator.service.js
lines 268-277): a fixed lookup on the intent NAME with a generic fallback,
`reasons[intent.name] || 'Customer needs personalized assistance'`. -/
def getHandoffReason (name : String) : String :=
  if name = "agent_request" then "Customer requested human agent"
  else if name = "technical_support" then "Technical support requires specialist"
  else if name = "low_confidence" then "Unable to understand request clearly"
  else if name = "no_knowledge" then "Information not available in knowledge base"
  else "Customer needs personalized assistance"

/-! ## Conversation history (`processCall` history effect, `clearHistory`) -/

structure Message where
  role : String
  content : String
deriving Repr, DecidableEq

/-- The process-wide conversation map, `callId -> messages[]`
(`this.conversationHistory`), modelled as a partial function. -/
def ConvMap : Type := String → Option (List Message)

/-- Embedding of the conversation-map effect of
`OrchestratorService.processCall` (orchestrator.service.js lines 57-143) on a
successful turn: create the history lazily with the system prompt as its
first message, push the user message, and — after the language-model
collaborator produced `assistantReply` — push the assistant message.  All
other keys of the map are untouched. -/
def processCallHistory (systemPrompt : String) (hist : ConvMap)
    (callId userInput assistantReply : String) : ConvMap :=
  let base :=
    match hist callId with
    | none => [⟨"system", systemPrompt⟩]
    | some msgs => msgs
  fun id =>
    if id = callId then some (base ++ [⟨"user", userInput⟩, ⟨"assistant", assistantReply⟩])
    else hist id

/-- Embedding of `OrchestratorService.clearHistory` (orchestrator.service.js
lines 312-315): `this.conversationHistory.delete(callId)`. -/
def clearHistory (hist : ConvMap) (callId : String) : ConvMap :=
  fun id => if id = callId then none else hist id

/-! ## Embeddings batching (`EmbeddingsService.generateEmbeddings`) -/

/-- Splitting into provider batches: the JavaScript loop
`for (let i = 0; i < validTexts.length; i += batchSize) batches.push(validTexts.slice(i, i + batchSize))`
with batch size `bs + 1` (the source uses 2048, i.e. `bs = 2047`).  Fuel-based
so that the definition is structural; `toBatchesPos` supplies enough fuel. -/
def toBatchesAux (bs : Nat) : Nat → List α → List (List α)
  | 0, _ => []
  | _, [] => []
  | fuel + 1, x :: xs => (x :: xs.take bs) :: toBatchesAux bs fuel (xs.drop bs)

def toBatchesPos (bs : Nat) (l : List α) : List (List α) :=
  toBatchesAux bs l.length l

/-- Embedding of `EmbeddingsService.generateEmbeddings` (embeddings service,
orchestrator.service.js concatenation lines 627-680).  The provider call
`client.embeddings.create({input: batch})` returns one vector per batch
entry; it is abstracted by the pure `embedOne` applied entrywise.  The code
throws on an empty input array and when every entry is blank; blank entries
(`!text || text.trim().length === 0`) are filtered out, and the per-batch
results are concatenated into `allEmbeddings` in order. -/
def generateEmbeddings (embedOne : String → List ℚ) (texts : List String) :
    Except String (List (List ℚ)) :=
  if texts.isEmpty then .error "Texts must be a non-empty array"
  else
    let validTexts := texts.filter (fun t => decide (0 < (jsTrim t).length))
    if validTexts.isEmpty then .error "No valid texts to embed"
    else
      .ok ((toBatchesPos 2047 validTexts).foldl (fun acc batch => acc ++ batch.map embedOne) [])

/-! ## Fixed-window chunking (`EmbeddingsService.chunkText`) -/

/-- JavaScript `Array.prototype.slice(start, stop)` on lists, with the
negative-index and clamping semantics of ECMAScript. -/
def jsSlice (l : List α) (start stop : Int) : List α :=
  let len : Int := l.length
  let s := if start < 0 then max 0 (len + start) else min start len
  let e := if stop < 0 then max 0 (len + stop) else min stop len
  (l.drop s.toNat).take (e - s).toNat

structure WindowChunk where
  text : String
  startIndex : Int
  endIndex : Int
deriving Repr, DecidableEq

/-- Body-and-step of the `chunkText` loop (embeddings service,
orchestrator.service.js lines 729-749):
`for (let i = 0; i < words.length; i += chunkSize - overlap)` pushing
`{text: words.slice(i, i + chunkSize).join(' '), startIndex: i, endIndex: min(i + chunkSize, words.length)}`
whenever the joined text is non-blank.  The loop is given explicit fuel:
`none` means the loop has not reached its exit condition within `fuel`
iterations (for any fuel, in the non-terminating configurations). -/
def chunkTextLoop (words : List String) (chunkSize overlap : Int) :
    Nat → Int → List WindowChunk → Option (List WindowChunk)
  | 0, _, _ => none
  | fuel + 1, i, acc =>
    if i < (words.length : Int) then
      let chunk := " ".intercalate (jsSlice words i (i + chunkSize))
      let acc' :=
        if 0 < (jsTrim chunk).length then
          acc ++ [⟨chunk, i, min (i + chunkSize) (words.length : Int)⟩]
        else acc
      chunkTextLoop words chunkSize overlap fuel (i + (chunkSize - overlap)) acc'
    else some acc

/-! ## Query validation (`RAGService.validateQuery`) -/

def restrictedCategories : List String := ["confidential", "internal"]

/-- Embedding of `RAGService.validateQuery` (rag service, orchestrator.service.js
concatenation lines 1046-1066): reject iff some restricted category occurs as
a literal substring of the lowercased query and the caller lacks
`hasHighAccess`.  Returns `(valid, reason)`. -/
def validateQuery (query : String) (hasHighAccess : Bool) : Bool × Option String :=
  if restrictedCategories.any (fun cat => strContainsSub (toLowerStr query) cat) && !hasHighAccess then
    (false, some "Query contains restricted content")
  else
    (true, none)

/-! ## Vector store (`VectorStoreService`) -/

/-- A row of the `document_chunks` ⋈ `documents` join as selected by
`searchSimilar` (vector-store.service.js lines 131-147).  The similarity
expression `1 - (dc.embedding <=> $1::vector)` is irrational in general
(cosine distance involves square roots), so it is abstracted as a function
`sim : SearchRow → ℚ` of the row, fixed per query. -/
structure SearchRow where
  id : Nat
  documentId : Nat
  chunkIndex : Nat
  content : String
  title : String
  source : String
  category : String
  department : String
  accessLevel : String
deriving Repr, DecidableEq

/-- Embedding of `VectorStoreService.searchSimilar` (vector-store.service.js
lines 119-209), i.e. of the SQL query it issues: keep the rows whose
similarity is at least the threshold and which satisfy each equality filter
that was supplied (`if (accessLevel) ... AND d.access_level = $n`, same for
category and department; an absent/null option skips the filter), order by
similarity descending (`ORDER BY similarity DESC`), and truncate to `topK`
(`LIMIT`). -/
def searchSimilar (sim : SearchRow → ℚ) (rows : List SearchRow) (topK : Nat) (threshold : ℚ)
    (accessLevel category department : Option String) : List SearchRow :=
  let filtered := rows.filter (fun r =>
    decide (threshold ≤ sim r)
    && (match accessLevel with | none => true | some a => r.accessLevel == a)
    && (match category with | none => true | some c => r.category == c)
    && (match department with | none => true | some d => r.department == d))
  (List.insertionSort (fun a b => sim b ≤ sim a) filtered).take topK

/-- Input item of `insertChunks`. -/
structure ChunkIn where
  documentId : String
  chunkIndex : Nat
  content : String
  embedding : List ℚ
deriving Repr, DecidableEq

/-- A persisted `document_chunks` row (id assigned by the database). -/
structure ChunkRow where
  id : Nat
  documentId : String
  chunkIndex : Nat
  content : String
deriving Repr, DecidableEq

/-- The `for (const chunk of chunks)` loop of `insertChunks` inside the open
transaction: each `client.query(INSERT ...)` either yields a row (buffered in
the transaction, its id collected into `insertedIds`) or fails, which aborts
the loop.  `ins` abstracts the database insert, `none` modelling a failed
statement (e.g. a malformed item). -/
def insertLoop (ins : ChunkIn → Option ChunkRow) :
    List ChunkIn → List ChunkRow → Option (List ChunkRow)
  | [], pending => some pending
  | c :: cs, pending =>
    match ins c with
    | some r => insertLoop ins cs (pending ++ [r])
    | none => none

/-- Embedding of `VectorStoreService.insertChunks` (vector-store.service.js
lines 72-114) with PostgreSQL transaction semantics made explicit: `BEGIN`
opens an empty pending buffer, the loop fills it, `COMMIT` appends it to the
committed table, and on any statement failure `ROLLBACK` discards it, leaving
the table as it was, and the error is rethrown (`none` result). -/
def insertChunks (ins : ChunkIn → Option ChunkRow) (db : List ChunkRow) (chunks : List ChunkIn) :
    List ChunkRow × Option (List Nat) :=
  match insertLoop ins chunks [] with
  | some pending => (db ++ pending, some (pending.map (fun r => r.id)))
  | none => (db, none)

/-! ## Indexing pipeline (`DriveService.indexFolder`) -/

structure DriveFile where
  id : String
  name : String
deriving Repr, DecidableEq

structure IndexError where
  fileId : String
  fileName : String
  error : String
deriving Repr, DecidableEq

structure FolderResult where
  total : Nat
  indexed : Nat
  errors : List IndexError
deriving Repr, DecidableEq

/-- One iteration of the `for (const file of allFiles)` loop of `indexFolder`:
try to index, and on a thrown error catch it and push
`{fileId, fileName, error}` onto the error list. -/
def indexStep (indexOne : DriveFile → Except String Unit)
    (errs : List IndexError) (f : DriveFile) : List IndexError :=
  match indexOne f with
  | .ok _ => errs
  | .error e => errs ++ [⟨f.id, f.name, e⟩]

/-- The error record `indexFolder` produces for a file, if any. -/
def indexErrorOf (indexOne : DriveFile → Except String Unit) (f : DriveFile) :
    Option IndexError :=
  match indexOne f with
  | .ok _ => none
  | .error e => some ⟨f.id, f.name, e⟩

/-- Embedding of `DriveService.indexFolder` (Drive service source, lines
148-211), after the paged listing has produced `files`: each file is indexed
independently (`indexOne` abstracts `this.indexFile`, `Except.error` a thrown
error); a failure is caught and pushed onto `errors` without aborting the
loop, and the result is `{total, indexed: total - errors.length, errors}`. -/
def indexFolder (indexOne : DriveFile → Except String Unit) (files : List DriveFile) :
    FolderResult :=
  let errors := files.foldl (indexStep indexOne) []
  { total := files.length
    indexed := files.length - errors.length
    errors := errors }

/-! ## Concrete sample data used by witness theorems -/

/-- A sample stored row for exercising `searchSimilar`. -/
def sampleRow : SearchRow :=
  ⟨0, 0, 0, "content", "title", "source", "faq", "it", "public"⟩

/-- A five-item batch whose third item is malformed (content `"bad"`). -/
def sampleChunks : List ChunkIn :=
  [⟨"doc", 0, "c0", [1]⟩, ⟨"doc", 1, "c1", [1]⟩, ⟨"doc", 2, "bad", [1]⟩,
   ⟨"doc", 3, "c3", [1]⟩, ⟨"doc", 4, "c4", [1]⟩]

/-- A sample database insert that fails exactly on content `"bad"`. -/
def sampleIns : ChunkIn → Option ChunkRow :=
  fun c => if c.content == "bad" then none else some ⟨0, c.documentId, c.chunkIndex, c.content⟩

/-! ## Theorems -/

/-- C2: whenever the detected intent is `agent_request`, the handoff decision
is `true` (the explicit-request rule is checked first in `shouldHandoff`, so
this holds regardless of the confidence, of business hours and of the
knowledge-base results), and the reason reported for the turn is the
explicit-request entry `Customer requested human agent` — never the
low-confidence entry. -/
theorem C2_agent_request_precedence (i : Intent) (biz : Bool) (tools : List ToolResult)
    (h : i.name = "agent_request") :
    shouldHandoff i biz tools = true ∧
    getHandoffReason i.name = "Customer requested human agent" ∧
    getHandoffReason i.name ≠ "Unable to understand request clearly" := by
  refine ⟨?_, ?_, ?_⟩ <;> simp [shouldHandoff, getHandoffReason, h]

/-- Witness for C2 at a concrete turn that also satisfies the low-confidence
rule (confidence 0 < 0.3). -/
theorem C2_witness :
    shouldHandoff ⟨"agent_request", 0, []⟩ true [] = true ∧
    getHandoffReason (Intent.name ⟨"agent_request", 0, []⟩) = "Customer requested human agent" ∧
    getHandoffReason (Intent.name ⟨"agent_request", 0, []⟩) ≠ "Unable to understand request clearly" :=
  C2_agent_request_precedence ⟨"agent_request", 0, []⟩ true [] rfl

/-- C8: `validateQuery` rejects a query exactly when the lowercased query
contains a restricted-category term as a literal substring and the caller
lacks elevated access; otherwise the query is accepted. -/
theorem C8_validateQuery_iff (q : String) (access : Bool) :
    (validateQuery q access).1 = false ↔
      ((∃ cat ∈ restrictedCategories, strContainsSub (toLowerStr q) cat = true) ∧ access = false) := by
  cases hA : restrictedCategories.any (fun cat => strContainsSub (toLowerStr q) cat) <;>
    cases access <;>
      simp [validateQuery, hA, ← List.any_eq_true]

/-- C9: the conversation state is keyed by call id and never leaks across
calls: the first turn of a call creates its history with the system prompt
first and appends the user and assistant messages, a later turn appends
exactly one user and one assistant message to the existing history, every
other call id is left untouched by both `processCall` and `clearHistory`, and
`clearHistory` removes exactly the given call's state. -/
theorem C9_state_isolation (sp u a cid oid : String) (h1 h2 : ConvMap) (m : List Message)
    (hne : oid ≠ cid) (hnew : h1 cid = none) (hold : h2 cid = some m) :
    processCallHistory sp h1 cid u a cid =
      some [⟨"system", sp⟩, ⟨"user", u⟩, ⟨"assistant", a⟩] ∧
    processCallHistory sp h2 cid u a cid = some (m ++ [⟨"user", u⟩, ⟨"assistant", a⟩]) ∧
    processCallHistory sp h1 cid u a oid = h1 oid ∧
    processCallHistory sp h2 cid u a oid = h2 oid ∧
    clearHistory h1 cid cid = none ∧
    clearHistory h1 cid oid = h1 oid := by
  refine ⟨?_, ?_, ?_, ?_, ?_, ?_⟩ <;>
    simp [processCallHistory, clearHistory, hnew, hold, hne]

/-- Witness for C9 at concrete call ids `"c1"` and `"c2"` and concrete maps. -/
theorem C9_witness :
    processCallHistory "s" (fun _ => none) "c1" "u" "r" "c1" =
      some [⟨"system", "s"⟩, ⟨"user", "u"⟩, ⟨"assistant", "r"⟩] ∧
    processCallHistory "s" (fun x => if x = "c1" then some [] else none) "c1" "u" "r" "c1" =
      some ([] ++ [⟨"user", "u"⟩, ⟨"assistant", "r"⟩]) ∧
    processCallHistory "s" (fun _ => none) "c1" "u" "r" "c2" = (fun _ => none : ConvMap) "c2" ∧
    processCallHistory "s" (fun x => if x = "c1" then some [] else none) "c1" "u" "r" "c2" =
      (fun x => if x = "c1" then some [] else none : ConvMap) "c2" ∧
    clearHistory (fun _ => none) "c1" "c1" = none ∧
    clearHistory (fun _ => none) "c1" "c2" = (fun _ => none : ConvMap) "c2" :=
  C9_state_isolation "s" "u" "r" "c1" "c2" (fun _ => none)
    (fun x => if x = "c1" then some [] else none) [] (by decide) rfl (by simp)

/-- If any item of the batch fails to insert, the transaction loop aborts
with an error, whatever was already pending. -/
theorem insertLoop_failure (ins : ChunkIn → Option ChunkRow) :
    ∀ (chunks : List ChunkIn) (pending : List ChunkRow),
      (∃ c ∈ chunks, ins c = none) → insertLoop ins chunks pending = none := by
  intro chunks
  induction chunks with
  | nil => intro p h; simp at h
  | cons c cs ih =>
    intro p h
    cases hc : ins c with
    | none => simp [insertLoop, hc]
    | some r =>
      obtain ⟨d, hd, hdn⟩ := h
      rcases List.mem_cons.mp hd with he | hm
      · subst he; rw [hc] at hdn; cases hdn
      · simp only [insertLoop, hc]
        exact ih _ ⟨d, hm, hdn⟩

/-- If every item of the batch inserts, the loop returns the pending buffer
extended by one row per item, in order. -/
theorem insertLoop_success (ins : ChunkIn → Option ChunkRow) :
    ∀ (chunks : List ChunkIn) (pending : List ChunkRow),
      (∀ c ∈ chunks, (ins c).isSome) →
      insertLoop ins chunks pending = some (pending ++ chunks.filterMap ins) := by
  intro chunks
  induction chunks with
  | nil => intro p _; simp [insertLoop]
  | cons c cs ih =>
    intro p h
    obtain ⟨r, hr⟩ := Option.isSome_iff_exists.mp (h c (List.mem_cons_self c cs))
    simp only [insertLoop, hr]
    rw [ih _ (fun d hd => h d (List.mem_cons_of_mem c hd))]
    simp [List.filterMap_cons, hr]

/-- C5: `insertChunks` is atomic.  If inserting any item of the batch fails,
the committed table is unchanged and no ids are returned (rollback, zero
partial rows); if every item succeeds, all rows of the batch are appended and
their ids returned. -/
theorem C5_insertChunks_atomic (ins : ChunkIn → Option ChunkRow) (db : List ChunkRow)
    (chunks : List ChunkIn) :
    ((∃ c ∈ chunks, ins c = none) → insertChunks ins db chunks = (db, none)) ∧
    ((∀ c ∈ chunks, (ins c).isSome) →
      insertChunks ins db chunks =
        (db ++ chunks.filterMap ins, some ((chunks.filterMap ins).map (fun r => r.id)))) := by
  constructor
  · intro h
    unfold insertChunks
    rw [insertLoop_failure ins chunks [] h]
  · intro h
    unfold insertChunks
    rw [insertLoop_success ins chunks [] h]
    simp

/-- Witness for C5: a malformed item in position 3 of a 5-item batch leaves
zero rows from that batch persisted. -/
theorem C5_witness : insertChunks sampleIns [] sampleChunks = ([], none) :=
  (C5_insertChunks_atomic sampleIns [] sampleChunks).1
    ⟨⟨"doc", 2, "bad", [1]⟩, by decide, by decide⟩

/-- The error list accumulated by the `indexFolder` loop is exactly the list
of error records of the failing files, in order, appended to whatever was
already accumulated: one failure never aborts the remaining iterations. -/
theorem indexFolder_foldl_errors (indexOne : DriveFile → Except String Unit) :
    ∀ (files : List DriveFile) (errs : List IndexError),
      files.foldl (indexStep indexOne) errs = errs ++ files.filterMap (indexErrorOf indexOne) := by
  intro files
  induction files with
  | nil => intro errs; simp
  | cons f t ih =>
    intro errs
    rw [List.foldl_cons, ih]
    cases hf : indexOne f <;> simp [indexStep, indexErrorOf, hf]

/-- A file contributes an error record exactly when indexing it fails. -/
theorem indexErrorOf_length (indexOne : DriveFile → Except String Unit) :
    ∀ (files : List DriveFile),
      (files.filterMap (indexErrorOf indexOne)).length =
        (files.filter (fun f => !(indexOne f).isOk)).length := by
  intro files
  induction files with
  | nil => rfl
  | cons f t ih =>
    cases hf : indexOne f <;>
      simp [indexErrorOf, hf, List.filter_cons, Except.isOk, Except.toBool, ih]

/-- C7: folder indexing is fault-isolated: over `n` listed files of which `f`
fail, each file is indexed independently, each failure is appended to the
error list without aborting the rest, and the result is
`{total: n, indexed: n - f, errors}` with `errors.length = f`. -/
theorem C7_indexFolder_fault_isolation (indexOne : DriveFile → Except String Unit)
    (files : List DriveFile) :
    (indexFolder indexOne files).total = files.length ∧
    (indexFolder indexOne files).errors = files.filterMap (indexErrorOf indexOne) ∧
    (indexFolder indexOne files).errors.length =
      (files.filter (fun f => !(indexOne f).isOk)).length ∧
    (indexFolder indexOne files).indexed =
      files.length - (files.filter (fun f => !(indexOne f).isOk)).length := by
  have he : (indexFolder indexOne files).errors = files.filterMap (indexErrorOf indexOne) := by
    unfold indexFolder
    simpa using indexFolder_foldl_errors indexOne files []
  refine ⟨rfl, he, ?_, ?_⟩
  · rw [he, indexErrorOf_length]
  · show files.length - (files.foldl (indexStep indexOne) []).length = _
    rw [show files.foldl (indexStep indexOne) [] = (indexFolder indexOne files).errors from rfl,
      he, indexErrorOf_length]

/-- A nonzero maximum match count is attained by some entry of the list. -/
theorem maxCount_attained (l : List (String × Nat)) (h : maxCount l ≠ 0) :
    ∃ p ∈ l, p.2 = maxCount l := by
  induction l with
  | nil => simp [maxCount] at h
  | cons p t ih =>
    by_cases ht : maxCount t ≤ p.2
    · exact ⟨p, List.mem_cons_self p t, by simp [maxCount, Nat.max_eq_left ht]⟩
    · have h2 : maxCount (p :: t) = maxCount t := by
        simp [maxCount, Nat.max_eq_right (Nat.le_of_lt (Nat.lt_of_not_le ht))]
      rw [h2] at h ⊢
      obtain ⟨q, hq, hq2⟩ := ih h
      exact ⟨q, List.mem_cons_of_mem _ hq, hq2⟩

/-- Characterisation of the strictly-greater scan of `detectIntent`: starting
from any accumulator, the loop returns the accumulator when no count exceeds
it, and otherwise the first (declaration-order) entry attaining the maximal
count. -/
theorem scanBest_eq (l : List (String × Nat)) :
    ∀ acc,
      scanBest acc l =
        if maxCount l ≤ acc.2 then acc
        else (l.find? (fun p => p.2 == maxCount l)).getD acc := by
  induction l with
  | nil => intro acc; simp [scanBest, maxCount]
  | cons p t ih =>
    intro acc
    simp only [scanBest, maxCount]
    rw [ih]
    by_cases h1 : acc.2 < p.2
    · simp only [if_pos h1]
      by_cases h2 : maxCount t ≤ p.2
      · have hM : max p.2 (maxCount t) = p.2 := Nat.max_eq_left h2
        rw [if_pos h2, hM, if_neg (by omega)]
        rw [List.find?_cons_of_pos _ (by simp)]
        simp
      · have hM : max p.2 (maxCount t) = maxCount t := Nat.max_eq_right (by omega)
        rw [if_neg h2, hM, if_neg (by omega)]
        rw [List.find?_cons_of_neg _ (by simp; omega)]
        have hex : ∃ x ∈ t, (fun q => q.2 == maxCount t) x = true := by
          obtain ⟨q, hq, hq2⟩ := maxCount_attained t (by omega)
          exact ⟨q, hq, by simp [hq2]⟩
        obtain ⟨v, hv⟩ := Option.isSome_iff_exists.mp (List.find?_isSome.mpr hex)
        rw [hv]
        simp
    · simp only [if_neg h1]
      by_cases h3 : max p.2 (maxCount t) ≤ acc.2
      · rw [if_pos (by omega : maxCount t ≤ acc.2), if_pos h3]
      · have hM : max p.2 (maxCount t) = maxCount t := Nat.max_eq_right (by omega)
        rw [if_neg (by omega : ¬ maxCount t ≤ acc.2), if_neg h3, hM]
        rw [List.find?_cons_of_neg _ (by simp; omega)]

/-- The count returned by the scan is the maximum of the accumulator and of
all counts in the list. -/
theorem scanBest_snd (l : List (String × Nat)) (acc : String × Nat) :
    (scanBest acc l).2 = max acc.2 (maxCount l) := by
  rw [scanBest_eq]
  by_cases h : maxCount l ≤ acc.2
  · simp [h, Nat.max_eq_left h]
  · rw [if_neg h]
    cases hf : l.find? (fun p => p.2 == maxCount l) with
    | none =>
      exfalso
      obtain ⟨q, hq, hq2⟩ := maxCount_attained l (by omega)
      have := List.find?_eq_none.mp hf q hq
      simp [hq2] at this
    | some v =>
      have hv := List.find?_some hf
      simp only [beq_iff_eq] at hv
      simp only [Option.getD_some]
      rw [Nat.max_eq_right (by omega)]
      exact hv

/-- The name returned by the scan is the accumulator's name or one of the
names in the list. -/
theorem scanBest_fst (l : List (String × Nat)) (acc : String × Nat) :
    (scanBest acc l).1 = acc.1 ∨ (scanBest acc l).1 ∈ l.map Prod.fst := by
  rw [scanBest_eq]
  by_cases h : maxCount l ≤ acc.2
  · left; simp [h]
  · rw [if_neg h]
    cases hf : l.find? (fun p => p.2 == maxCount l) with
    | none => left; rfl
    | some v =>
      right
      simp only [Option.getD_some, List.mem_map]
      exact ⟨v, List.mem_of_find?_eq_some hf, rfl⟩

/-- C3 counterexample: on `"repair book"` the keyword `repair` (services) and
the keyword `book` (appointment) each match once, a tie at the maximal count.
The code returns `services` (earliest in declaration order), while the
claim's alphabetical tie-break would return `appointment`. -/
theorem C3_counterexample :
    (detectIntent "repair book").name = "services" ∧
    (detectIntentAlphaSpec "repair book").name = "appointment" ∧
    "services" ≠ "appointment" := by
  refine ⟨by decide, by decide, by decide⟩

/-- C3 amended: `detectIntent` lowercases the utterance, counts substring
keyword matches per intent, and selects the intent with the highest match
count, with ties between equal-count intents broken by the fixed declaration
order of the intent table (earliest declared wins), not alphabetically;
confidence is `min(matchCount × 0.3, 0.95)` and an utterance with no keyword
match yields `general_inquiry` with confidence `0`. -/
theorem C3_amended_declaration_order (text : String) :
    detectIntent text = detectIntentDeclSpec text := by
  simp only [detectIntent, detectIntentDeclSpec]
  have hs := scanBest_eq (intentTable.map (fun e => (e.1, countMatches (toLowerStr text) e.2)))
    ("general_inquiry", 0)
  have hsnd := scanBest_snd (intentTable.map (fun e => (e.1, countMatches (toLowerStr text) e.2)))
    ("general_inquiry", 0)
  by_cases hm : maxCount (intentTable.map (fun e => (e.1, countMatches (toLowerStr text) e.2))) = 0
  · rw [hs]
    simp [hm]
  · rw [hs] at hsnd ⊢
    rw [if_neg (by omega)] at hsnd ⊢
    rw [if_neg hm]
    rw [hsnd]
    simp

/-- C10: the reported handoff reason is derived solely from the detected
intent name by the fixed lookup of `getHandoffReason`, not from the rule that
fired: a low-confidence turn (whose intent is necessarily the default) and
any turn whose intent name is outside the lookup table (e.g. `pricing`)
report the generic fallback, and the `low_confidence` / `no_knowledge`
entries of the table are never returned for a detected intent, since no
intent carries those names. -/
theorem C10_reason_from_name (text : String) :
    ((detectIntent text).confidence < 3 / 10 →
      getHandoffReason (detectIntent text).name = "Customer needs personalized assistance") ∧
    ((detectIntent text).name ∉
        (["agent_request", "technical_support", "low_confidence", "no_knowledge"] : List String) →
      getHandoffReason (detectIntent text).name = "Customer needs personalized assistance") ∧
    getHandoffReason (detectIntent text).name ≠ "Unable to understand request clearly" ∧
    getHandoffReason (detectIntent text).name ≠ "Information not available in knowledge base" ∧
    getHandoffReason "pricing" = "Customer needs personalized assistance" := by
  have hname : (detectIntent text).name =
      (scanBest ("general_inquiry", 0)
        (intentTable.map (fun e => (e.1, countMatches (toLowerStr text) e.2)))).1 := rfl
  have hmem := scanBest_fst
    (intentTable.map (fun e => (e.1, countMatches (toLowerStr text) e.2))) ("general_inquiry", 0)
  rw [← hname] at hmem
  rw [show (intentTable.map (fun e => (e.1, countMatches (toLowerStr text) e.2))).map Prod.fst =
      ["business_hours", "services", "appointment", "technical_support", "pricing",
       "location", "contact", "agent_request"] from rfl] at hmem
  simp only [List.mem_cons, List.not_mem_nil, or_false] at hmem
  refine ⟨?_, ?_, ?_, ?_, by decide⟩
  · intro hconf
    have hconfeq : (detectIntent text).confidence =
        ratMin (((scanBest ("general_inquiry", 0)
          (intentTable.map (fun e => (e.1, countMatches (toLowerStr text) e.2)))).2 : ℚ) * (3 / 10))
          (19 / 20) := rfl
    have hsnd := scanBest_snd
      (intentTable.map (fun e => (e.1, countMatches (toLowerStr text) e.2))) ("general_inquiry", 0)
    by_cases hk : maxCount (intentTable.map (fun e => (e.1, countMatches (toLowerStr text) e.2))) = 0
    · have hsb : scanBest ("general_inquiry", 0)
          (intentTable.map (fun e => (e.1, countMatches (toLowerStr text) e.2))) =
          ("general_inquiry", 0) := by
        rw [scanBest_eq]; simp [hk]
      rw [hname, hsb]
      decide
    · exfalso
      have h1k : 1 ≤ maxCount (intentTable.map (fun e => (e.1, countMatches (toLowerStr text) e.2))) :=
        Nat.one_le_iff_ne_zero.mpr hk
      have hk2 : (scanBest ("general_inquiry", 0)
          (intentTable.map (fun e => (e.1, countMatches (toLowerStr text) e.2)))).2 =
          maxCount (intentTable.map (fun e => (e.1, countMatches (toLowerStr text) e.2))) := by
        rw [hsnd]; simp
      have hge : (3 / 10 : ℚ) ≤ (detectIntent text).confidence := by
        rw [hconfeq, hk2]
        unfold ratMin
        split
        · have hcast : (1 : ℚ) ≤
              (maxCount (intentTable.map (fun e => (e.1, countMatches (toLowerStr text) e.2))) : ℚ) := by
            exact_mod_cast h1k
          nlinarith
        · norm_num
      linarith
  · intro hni
    simp only [List.mem_cons, List.not_mem_nil, or_false, not_or] at hni
    obtain ⟨n1, n2, n3, n4⟩ := hni
    simp [getHandoffReason, n1, n2, n3, n4]
  · rcases hmem with h | h | h | h | h | h | h | h | h <;> rw [h] <;> decide
  · rcases hmem with h | h | h | h | h | h | h | h | h <;> rw [h] <;> decide

/-- Witness for C10 at the concrete no-match utterance `"zzz"`, whose detected
intent is the default `general_inquiry`, outside the lookup table. -/
theorem C10_witness :
    getHandoffReason (detectIntent "zzz").name = "Customer needs personalized assistance" ∧
    getHandoffReason (detectIntent "zzz").name ≠ "Unable to understand request clearly" :=
  ⟨(C10_reason_from_name "zzz").2.1 (by decide), (C10_reason_from_name "zzz").2.2.1⟩

/-- With enough fuel, flattening the batches gives back the original list:
sub-batching loses and reorders nothing. -/
theorem toBatchesAux_flatten (bs : Nat) :
    ∀ (fuel : Nat) (l : List α), l.length ≤ fuel → (toBatchesAux bs fuel l).flatten = l := by
  intro fuel
  induction fuel with
  | zero =>
    intro l h
    rw [List.length_eq_zero.mp (Nat.le_zero.mp h)]
    rfl
  | succ n ih =>
    intro l h
    cases l with
    | nil => rfl
    | cons x xs =>
      simp only [toBatchesAux, List.flatten_cons]
      rw [ih (xs.drop bs) (by simp only [List.length_drop]; simp at h; omega)]
      simp [List.take_append_drop]

/-- Folding batch results with append equals mapping over the flattened
batches. -/
theorem foldl_append_map (f : String → List ℚ) :
    ∀ (batches : List (List String)) (acc : List (List ℚ)),
      batches.foldl (fun a b => a ++ b.map f) acc = acc ++ batches.flatten.map f := by
  intro batches
  induction batches with
  | nil => intro acc; simp
  | cons b t ih =>
    intro acc
    rw [List.foldl_cons, ih]
    simp

/-- C1 counterexample: a batch with one non-blank and one blank entry returns
a single embedding, so the output is NOT realigned to the original index
positions — its length differs from the input length. -/
theorem C1_counterexample :
    generateEmbeddings (fun _ => [(0 : ℚ)]) ["a", ""] = Except.ok [[(0 : ℚ)]] ∧
    ([[(0 : ℚ)]] : List (List ℚ)).length ≠ (["a", ""] : List String).length :=
  ⟨rfl, by decide⟩

/-- C1 amended: blank entries are excluded from the provider request, and the
returned array is COMPACTED, not realigned: it contains exactly the
embeddings of the non-blank entries in their original relative order, so its
length is the number of non-blank entries, not the input length. -/
theorem C1_amended_compaction (f : String → List ℚ) (texts : List String)
    (h : texts.filter (fun t => decide (0 < (jsTrim t).length)) ≠ []) :
    generateEmbeddings f texts =
      Except.ok ((texts.filter (fun t => decide (0 < (jsTrim t).length))).map f) := by
  have htexts : texts ≠ [] := by
    intro he
    rw [he] at h
    exact h rfl
  simp only [generateEmbeddings]
  rw [if_neg (by simpa [List.isEmpty_iff] using htexts)]
  rw [if_neg (by simpa [List.isEmpty_iff] using h)]
  rw [foldl_append_map]
  rw [show toBatchesPos 2047 (texts.filter (fun t => decide (0 < (jsTrim t).length))) =
      toBatchesAux 2047 (texts.filter (fun t => decide (0 < (jsTrim t).length))).length
        (texts.filter (fun t => decide (0 < (jsTrim t).length))) from rfl]
  rw [toBatchesAux_flatten 2047 _ _ (Nat.le_refl _)]
  simp

/-- Witness for C1 amended: `["hi", " "]` has one non-blank entry, and the
result is the single embedding of `"hi"`. -/
theorem C1_amended_witness :
    generateEmbeddings (fun _ => [(1 : ℚ)]) ["hi", " "] = Except.ok [[(1 : ℚ)]] :=
  (C1_amended_compaction (fun _ => [(1 : ℚ)]) ["hi", " "] (by decide)).trans (by rfl)

/-- C4: every result of `searchSimilar` has similarity at least the
threshold and satisfies each equality filter that was supplied, the results
are ordered by similarity descending, and at most `topK` results are
returned. -/
theorem C4_search_properties (sim : SearchRow → ℚ) (rows : List SearchRow) (topK : Nat)
    (threshold : ℚ) (accessLevel category department : Option String) :
    (searchSimilar sim rows topK threshold accessLevel category department).length ≤ topK ∧
    List.Sorted (fun a b => sim b ≤ sim a)
      (searchSimilar sim rows topK threshold accessLevel category department) ∧
    ∀ r ∈ searchSimilar sim rows topK threshold accessLevel category department,
      threshold ≤ sim r ∧
      (∀ a, accessLevel = some a → r.accessLevel = a) ∧
      (∀ c, category = some c → r.category = c) ∧
      (∀ d, department = some d → r.department = d) := by
  haveI : IsTrans SearchRow (fun a b => sim b ≤ sim a) :=
    ⟨fun _ _ _ hab hbc => le_trans hbc hab⟩
  haveI : IsTotal SearchRow (fun a b => sim b ≤ sim a) :=
    ⟨fun a b => le_total (sim b) (sim a)⟩
  refine ⟨List.length_take_le _ _, ?_, ?_⟩
  · exact (List.sorted_insertionSort _ _).sublist (List.take_sublist _ _)
  · intro r hr
    have hr1 := List.mem_of_mem_take hr
    have hr2 := (List.perm_insertionSort (fun a b => sim b ≤ sim a) _).mem_iff.mp hr1
    obtain ⟨-, hp⟩ := List.mem_filter.mp hr2
    simp only [Bool.and_eq_true, decide_eq_true_eq] at hp
    obtain ⟨⟨⟨h1, h2⟩, h3⟩, h4⟩ := hp
    refine ⟨h1, ?_, ?_, ?_⟩
    · intro a ha; rw [ha] at h2; simpa using h2
    · intro c hc; rw [hc] at h3; simpa using h3
    · intro d hd; rw [hd] at h4; simpa using h4

/-- Witness for C4 at a concrete one-row store with an access-level filter. -/
theorem C4_witness :
    (0 : ℚ) ≤ (fun _ => (0 : ℚ)) sampleRow ∧ sampleRow.accessLevel = "public" := by
  have h := (C4_search_properties (fun _ => (0 : ℚ)) [sampleRow] 1 0
    (some "public") none none).2.2 sampleRow (by decide)
  exact ⟨h.1, h.2.1 "public" rfl⟩

/-- C6: with `overlap = chunkSize` (an instance of `overlap ≥ size`), the
`chunkText` loop on the three-word input `"a b c"` silently never reaches its
exit condition: the index advances by `chunkSize - overlap = 0` each
iteration, so for EVERY amount of fuel the loop is still running — a silent
infinite loop, with no configuration error ever reported.  This contradicts
the claim that `overlap ≥ size` is reported as a configuration error and that
`chunkText` terminates on every input. -/
theorem C6_chunkText_silent_infinite_loop :
    ∀ (fuel : Nat) (acc : List WindowChunk),
      chunkTextLoop ["a", "b", "c"] 2 2 fuel 0 acc = none := by
  intro fuel
  induction fuel with
  | zero => intro acc; rfl
  | succ n ih =>
    intro acc
    have hstep : chunkTextLoop ["a", "b", "c"] 2 2 (n + 1) 0 acc =
        chunkTextLoop ["a", "b", "c"] 2 2 n 0 (acc ++ [⟨"a b", 0, 2⟩]) := rfl
    rw [hstep]
    exact ih _

end SanalSekreter
